import Mathlib

/-!
Verification of the exchange-rate notifier bot (`src/main.rs`).

The program is a periodic Telegram notifier: each tick it scrapes four
currency quotes from tgju.org, fetches the USDT/TRY cross-rate from the
BTCTurk ticker API, derives a lira price, formats a Persian message and
posts it.  This file gives a shallow embedding of the program's pure
logic and settles the specification claims against it.

Modelling conventions:
* Network transport, the HTML parser (`scraper`) and the JSON
  deserializer (`serde_json`) are external libraries; functions that use
  them are modelled from the point where the library hands back its
  result (the selected element's text for the scraper, the deserialized
  record for serde).
* Rust `i64` values are modelled as `Int`; the `i64` string parser is
  modelled with its exact overflow bounds.
* `f64` values are carried as exact rationals (`Rat`).  Every finite
  `f64` is a rational, and none of the theorems proved below depend on
  IEEE rounding; claims that do depend on bit-level IEEE-754 semantics
  are outside this embedding.
-/

/-- Unicode `White_Space` test on a character, as used by Rust's
`str::trim` (`char::is_whitespace`). -/
def isRustWhitespace (c : Char) : Bool :=
  let n := c.toNat
  (0x9 ≤ n && n ≤ 0xD) || n = 0x20 || n = 0x85 || n = 0xA0 || n = 0x1680 ||
  (0x2000 ≤ n && n ≤ 0x200A) || n = 0x2028 || n = 0x2029 || n = 0x202F ||
  n = 0x205F || n = 0x3000

/-- ASCII decimal digit test, as used by Rust's `char::to_digit(10)`
inside `i64::from_str`. -/
def isAsciiDigit (c : Char) : Bool :=
  48 ≤ c.toNat && c.toNat ≤ 57

/-- Numeric value of an ASCII digit character. -/
def digitVal (c : Char) : Int :=
  (c.toNat : Int) - 48

/-- `main.rs` line 52: `.trim()` — remove leading and trailing Unicode
whitespace. -/
def rustTrim (s : String) : String :=
  ⟨((s.data.dropWhile isRustWhitespace).reverse.dropWhile isRustWhitespace).reverse⟩

/-- The characters deleted by the cleaning step of `fetch_tgju_rate`
(`main.rs` lines 54-57): ASCII comma, ASCII space, and U+200C
(zero-width non-joiner).  The three sequential `replace(_, "")` calls
are together one filter over the characters. -/
def removedByClean (c : Char) : Bool :=
  c = ',' || c = ' ' || c.toNat = 0x200C

/-- `main.rs` lines 54-57: the cleaned text. -/
def cleanString (s : String) : String :=
  ⟨s.data.filter (fun c => !(removedByClean c))⟩

/-- Largest `i64` value. -/
def i64max : Int := 9223372036854775807

/-- Smallest `i64` value. -/
def i64min : Int := -9223372036854775808

/-- Error kinds of Rust's `i64::from_str` (`core::num::IntErrorKind`). -/
inductive IntErrKind where
  | empty
  | invalidDigit
  | posOverflow
  | negOverflow
deriving DecidableEq, Repr

/-- Digit-accumulation loop of `i64::from_str` for a non-negative parse:
per character, Rust checks `to_digit` (else `InvalidDigit`), then
`checked_mul(10)` and `checked_add(d)` (else `PosOverflow`).  For
`0 ≤ acc` and `0 ≤ d ≤ 9` the two checked steps fail exactly when
`acc * 10 + d > i64max`. -/
def parsePos : List Char → Int → Except IntErrKind Int
  | [], acc => .ok acc
  | c :: cs, acc =>
    if isAsciiDigit c then
      if acc * 10 + digitVal c > i64max then .error .posOverflow
      else parsePos cs (acc * 10 + digitVal c)
    else .error .invalidDigit

/-- Digit-accumulation loop of `i64::from_str` for a negative parse:
`checked_mul(10)` then `checked_sub(d)` (else `NegOverflow`). -/
def parseNeg : List Char → Int → Except IntErrKind Int
  | [], acc => .ok acc
  | c :: cs, acc =>
    if isAsciiDigit c then
      if acc * 10 - digitVal c < i64min then .error .negOverflow
      else parseNeg cs (acc * 10 - digitVal c)
    else .error .invalidDigit

/-- Rust's `"...".parse::<i64>()` (`i64::from_str`): empty input is
`Empty`, a lone sign is `InvalidDigit`, otherwise an optional sign
followed by checked digit accumulation. -/
def parseI64 (s : String) : Except IntErrKind Int :=
  match s.data with
  | [] => .error .empty
  | c :: rest =>
    if c = '+' then
      if rest.isEmpty then .error .invalidDigit else parsePos rest 0
    else if c = '-' then
      if rest.isEmpty then .error .invalidDigit else parseNeg rest 0
    else
      parsePos (c :: rest) 0

/-- Error cases of `fetch_tgju_rate` past the HTTP transport
(`main.rs` lines 39, 44, 60, 63). -/
inductive TgjuErr where
  | requestError
  | readBodyError
  | selectorNotFound
  | parseIntError (k : IntErrKind)
deriving DecidableEq, Repr

/-- `fetch_tgju_rate` (`main.rs` lines 51-64), modelled from the point
where the HTML library has run: `selectedText` is the joined text of the
first element matching
`.top-mobile-block .block-last-change-percentage .price`, or `none`
when no element matches.  The code trims it, removes commas, spaces and
U+200C, and parses the result as an `i64`. -/
def fetch_tgju_rate (selectedText : Option String) : Except TgjuErr Int :=
  match selectedText with
  | none => .error .selectorNotFound
  | some t =>
    let raw := rustTrim t
    let clean := cleanString raw
    match parseI64 clean with
    | .ok v => .ok v
    | .error k => .error (.parseIntError k)

example : fetch_tgju_rate (some " 1,050,000 ") = .ok 1050000 := rfl
example : fetch_tgju_rate (some "-5") = .ok (-5) := rfl
example : fetch_tgju_rate (some "12x") = .error (.parseIntError .invalidDigit) := rfl
example : fetch_tgju_rate none = .error .selectorNotFound := rfl
example : fetch_tgju_rate (some "9223372036854775808") =
    .error (.parseIntError .posOverflow) := rfl
example : fetch_tgju_rate (some "5\n") = .ok 5 := rfl

/-- JSON record shape of the BTCTurk ticker response, `main.rs` lines
17-20.  The `last` field is an `f64`, carried here as an exact
rational; no arithmetic is done on it by the fetcher. -/
structure BtcTurkItem where
  last : Rat
deriving DecidableEq, Repr

instance : Inhabited BtcTurkItem := ⟨⟨0⟩⟩

/-- JSON record shape of the BTCTurk ticker response, `main.rs` lines
11-15. -/
structure BtcTurkRes where
  success : Bool
  data : List BtcTurkItem
deriving DecidableEq, Repr

/-- Error cases of `fetch_usdt_try` (`main.rs` lines 72, 76, 84, 87):
transport errors, body-read errors, upstream rejection, JSON parse
failure. -/
inductive UsdtErr where
  | networkError
  | readBodyError
  | upstreamRejected
  | jsonParseError
deriving DecidableEq, Repr

/-- `fetch_usdt_try` (`main.rs` lines 78-88), modelled from the point
where `serde_json::from_str` has run: on a deserialized record, succeed
with `data[0].last` when `success` is true and `data` is non-empty,
otherwise reject; on a deserialization error, fail with the JSON parse
error. -/
def fetch_usdt_try (parsed : Except Unit BtcTurkRes) : Except UsdtErr Rat :=
  match parsed with
  | .error _ => .error .jsonParseError
  | .ok obj =>
    if obj.success && !obj.data.isEmpty then
      .ok (obj.data.headD default).last
    else
      .error .upstreamRejected

/-- The closed, ordered set of currency tags, `main.rs` lines 118-123. -/
inductive Currency where
  | usd
  | eur
  | aed
  | cny
deriving DecidableEq, Repr

/-- The snapshot of one tick: the `HashMap<&str, i64>` of `main.rs`
line 136, restricted to its four possible keys. -/
structure Rates where
  usd : Option Int
  eur : Option Int
  aed : Option Int
  cny : Option Int
deriving DecidableEq, Repr

/-- Lookup in the snapshot map (`rates.get(tag)`). -/
def Rates.get (r : Rates) : Currency → Option Int
  | .usd => r.usd
  | .eur => r.eur
  | .aed => r.aed
  | .cny => r.cny

/-- The collection loop of `main.rs` lines 138-148: each tag whose
fetch succeeded is inserted into the map; a failed fetch inserts
nothing. -/
def collectRates (res : Currency → Except TgjuErr Int) : Rates where
  usd := (res .usd).toOption
  eur := (res .eur).toOption
  aed := (res .aed).toOption
  cny := (res .cny).toOption

/-- Digit grouping on a reversed digit list: after every third digit
insert a comma. -/
def commaRev : List Char → List Char
  | a :: b :: c :: d :: rest => a :: b :: c :: ',' :: commaRev (d :: rest)
  | l => l

/-- English-locale formatting of a natural number with comma
thousand separators. -/
def fmt_nat (n : Nat) : String :=
  ⟨(commaRev (Nat.toDigits 10 n).reverse).reverse⟩

/-- `fmt_int` (`main.rs` lines 22-24): `num_format` English-locale
rendering of an `i64` — minus sign, then comma-grouped digits. -/
def fmt_int (n : Int) : String :=
  if n < 0 then "-" ++ fmt_nat n.natAbs else fmt_nat n.natAbs

example : fmt_int 1050000 = "1,050,000" := rfl
example : fmt_int (-42) = "-42" := rfl
example : fmt_int 0 = "0" := rfl
example : fmt_int 105000 = "105,000" := rfl

/-- Rust `i64` division truncates toward zero; `v / 10` of
`main.rs` lines 178-187. -/
def displayValue (v : Int) : Int := Int.tdiv v 10

/-- Message header, `main.rs` line 174. -/
def msgHeader : String := "📊 نرخ لحظه‌ای ارز (به تومان):\n\n"

/-- USD line, `main.rs` line 178. -/
def usdLine (v : Int) : String := "💵 دلار: " ++ fmt_int (displayValue v) ++ " تومان\n"

/-- EUR line, `main.rs` line 181. -/
def eurLine (v : Int) : String := "💶 یورو: " ++ fmt_int (displayValue v) ++ " تومان\n"

/-- AED line, `main.rs` line 184. -/
def aedLine (v : Int) : String := "🇦🇪 درهم: " ++ fmt_int (displayValue v) ++ " تومان\n"

/-- CNY line, `main.rs` line 187. -/
def cnyLine (v : Int) : String := "🇨🇳 یوآن چین: " ++ fmt_int (displayValue v) ++ " تومان\n"

/-- Derived lira line, `main.rs` lines 190-193. -/
def liraLine (lira : Int) : String := "\n🇹🇷 لیر ترکیه: " ++ fmt_int lira ++ " تومان\n"

/-- Footer, `main.rs` line 195. -/
def msgFooter : String := "\n🔄 به‌روزرسانی هر ۱ دقیقه\n\n"

/-- Message construction, `main.rs` lines 174-196: sequential
`push_str` of header, one optional line per tag in source order, the
lira line, the footer, and the chat id. -/
def buildMessage (r : Rates) (lira : Int) (chat_id : String) : String :=
  let t := msgHeader
  let t := match r.usd with
    | some v => t ++ usdLine v
    | none => t
  let t := match r.eur with
    | some v => t ++ eurLine v
    | none => t
  let t := match r.aed with
    | some v => t ++ aedLine v
    | none => t
  let t := match r.cny with
    | some v => t ++ cnyLine v
    | none => t
  t ++ liraLine lira ++ msgFooter ++ chat_id

/-- `round_up_to_i64` (`main.rs` lines 26-28): `v.ceil() as i64`.
The `f64` value is idealized as an exact rational, so the ceiling is
exact; the saturating behaviour of the `as` cast at the `i64` range
ends is not modelled here. -/
def round_up_to_i64 (v : Rat) : Int := Int.ceil v

/-- Outcome of one iteration of the loop of `main.rs` lines 134-203:
skip for lack of a USD quote (lines 151-155), skip on a cross-rate
failure (lines 158-165), or send a message (line 199). -/
inductive TickOutcome where
  | skippedNoUsd
  | skippedCross (e : UsdtErr)
  | sent (text : String)
deriving DecidableEq, Repr

/-- True exactly on the `sent` outcome: the notifier was invoked. -/
def TickOutcome.isSent : TickOutcome → Bool
  | .sent _ => true
  | _ => false

/-- One iteration of the tick loop (`main.rs` lines 134-203), modelled
on the fetch results of the tick: `tgju` gives the result of
`fetch_tgju_rate` per tag, `cross` the result of `fetch_usdt_try`.
The iteration collects the snapshot, skips when the
USD key is absent, skips when the cross-rate fetch fails, and
otherwise unwraps the USD entry (`.unwrap()` modelled by `getD 0`;
see the safety theorem), derives the lira value and sends the built
message. -/
def tick (tgju : Currency → Except TgjuErr Int) (cross : Except UsdtErr Rat)
    (chat_id : String) : TickOutcome :=
  let rates := collectRates tgju
  if !(rates.get .usd).isSome then .skippedNoUsd
  else
    match cross with
    | .error e => .skippedCross e
    | .ok rate_tr =>
      let usd_riyal : Rat := ((rates.get .usd).getD 0 : Int)
      let toman_per_lira := usd_riyal / rate_tr / 10
      let toman_per_lira_i64 := round_up_to_i64 toman_per_lira
      .sent (buildMessage rates toman_per_lira_i64 chat_id)

example :
    (tick (fun _ => .error .selectorNotFound) (.ok 2) "x") = .skippedNoUsd := rfl
example :
    (tick (fun _ => .ok 5) (.error .jsonParseError) "x") = .skippedCross .jsonParseError := rfl
example :
    (tick (fun _ => .ok 5) (.error .upstreamRejected) "x") = .skippedCross .upstreamRejected := rfl
example :
    (tick (fun _ => .ok 5) (.ok 2) "x").isSent = true := rfl

/-- The fixed display order of currency tags (spec §2, §4.5): USD,
EUR, AED, CNY — the order of the static endpoint list of `main.rs`
lines 118-123 and of the four `if let` blocks of lines 177-188. -/
def currencyOrder : List Currency := [.usd, .eur, .aed, .cny]

/-- The message line contributed by a tag. -/
def lineForTag : Currency → Int → String
  | .usd, v => usdLine v
  | .eur, v => eurLine v
  | .aed, v => aedLine v
  | .cny, v => cnyLine v

/-- Spec-side description of the currency-line block (§4.5, §8): one
line per tag present in the snapshot, in the fixed order USD, EUR,
AED, CNY; absent tags contribute nothing. -/
def currencyLines (r : Rates) : List String :=
  currencyOrder.filterMap (fun t => (r.get t).map (lineForTag t))

/-- Concatenation of a list of strings, in order. -/
def joinAll : List String → String
  | [] => ""
  | s :: rest => s ++ joinAll rest

/-- The sequentially built message equals the header, the ordered
currency-line block, the lira line, the footer and the chat id. -/
theorem buildMessage_eq (r : Rates) (lira : Int) (chat_id : String) :
    buildMessage r lira chat_id =
      msgHeader ++ joinAll (currencyLines r) ++ liraLine lira ++ msgFooter ++ chat_id := by
  obtain ⟨u, e, a, c⟩ := r
  cases u <;> cases e <;> cases a <;> cases c <;>
    simp [buildMessage, currencyLines, currencyOrder, Rates.get, lineForTag, joinAll,
      List.filterMap, String.append_assoc]

/-- `joinAll` of a list containing `x` splits around `x`. -/
theorem joinAll_of_mem {x : String} {l : List String} (h : x ∈ l) :
    ∃ p q, joinAll l = p ++ (x ++ q) := by
  obtain ⟨s, t, rfl⟩ := List.append_of_mem h
  refine ⟨joinAll s, joinAll t, ?_⟩
  induction s with
  | nil => simp [joinAll]
  | cons hd tl ih => simp [joinAll, ih, String.append_assoc]

/-- A digit character has a digit value between 0 and 9. -/
theorem digitVal_bounds {c : Char} (h : isAsciiDigit c = true) :
    0 ≤ digitVal c ∧ digitVal c ≤ 9 := by
  simp [isAsciiDigit] at h
  simp [digitVal]
  omega

/-- An ASCII digit is not Unicode whitespace. -/
theorem digit_not_whitespace {c : Char} (h : isAsciiDigit c = true) :
    isRustWhitespace c = false := by
  simp [isAsciiDigit] at h
  simp [isRustWhitespace]
  omega

/-- A character removed by the cleaning step is either the space
(whitespace) or not whitespace at all. -/
theorem removed_whitespace_is_space {c : Char} (hr : removedByClean c = true)
    (hw : isRustWhitespace c = true) : c = ' ' := by
  simp [removedByClean] at hr
  rcases hr with (h | h) | h
  · subst h; exact absurd hw (by decide)
  · exact h
  · exfalso
    simp [isRustWhitespace] at hw
    omega

/-- Value denoted by a decimal digit string read left to right,
accumulating onto `acc`. -/
def decValFrom (acc : Int) : List Char → Int
  | [] => acc
  | c :: cs => decValFrom (acc * 10 + digitVal c) cs

/-- Value denoted by a decimal integer literal: the number written by
a string of decimal digits. -/
def decVal (l : List Char) : Int := decValFrom 0 l

example : decVal "1050000".data = 1050000 := rfl

/-- Accumulating further digits never decreases a non-negative
accumulator. -/
theorem decValFrom_le {l : List Char} :
    ∀ {acc : Int}, (∀ c ∈ l, isAsciiDigit c = true) → 0 ≤ acc →
      acc ≤ decValFrom acc l := by
  induction l with
  | nil => intro acc _ _; simp [decValFrom]
  | cons c cs ih =>
    intro acc h hacc
    have hd := digitVal_bounds (h c (by simp))
    have h1 : acc ≤ acc * 10 + digitVal c := by nlinarith [hd.1]
    have h2 : (0 : Int) ≤ acc * 10 + digitVal c := by nlinarith [hd.1]
    exact le_trans h1 (ih (fun x hx => h x (by simp [hx])) h2)

/-- The positive accumulation loop succeeds on an all-digit string
whose value stays within the `i64` range, and returns that value. -/
theorem parsePos_ok {l : List Char} :
    ∀ {acc : Int}, (∀ c ∈ l, isAsciiDigit c = true) → 0 ≤ acc →
      decValFrom acc l ≤ i64max → parsePos l acc = .ok (decValFrom acc l) := by
  induction l with
  | nil => intro acc _ _ _; simp [parsePos, decValFrom]
  | cons c cs ih =>
    intro acc h hacc hle
    have hc := h c (by simp)
    have hd := digitVal_bounds hc
    have h2 : (0 : Int) ≤ acc * 10 + digitVal c := by nlinarith [hd.1]
    have hrest : ∀ x ∈ cs, isAsciiDigit x = true := fun x hx => h x (by simp [hx])
    have hle2 : decValFrom (acc * 10 + digitVal c) cs ≤ i64max := by
      simpa [decValFrom] using hle
    have hnov : ¬(acc * 10 + digitVal c > i64max) := by
      have := decValFrom_le hrest h2
      omega
    simp only [parsePos, hc, if_true, hnov, if_false, decValFrom]
    exact ih hrest h2 hle2

/-- The positive accumulation loop never returns a negative value
from a non-negative accumulator. -/
theorem parsePos_nonneg {l : List Char} :
    ∀ {acc v : Int}, 0 ≤ acc → parsePos l acc = .ok v → 0 ≤ v := by
  induction l with
  | nil =>
    intro acc v hacc h
    simp [parsePos] at h
    omega
  | cons c cs ih =>
    intro acc v hacc h
    simp only [parsePos] at h
    by_cases hc : isAsciiDigit c = true
    · simp only [hc, if_true] at h
      by_cases hov : acc * 10 + digitVal c > i64max
      · simp [hov] at h
      · simp only [hov, if_false] at h
        have hd := digitVal_bounds hc
        have h2 : (0 : Int) ≤ acc * 10 + digitVal c := by nlinarith [hd.1]
        exact ih h2 h
    · simp [hc] at h

/-- The positive accumulation loop fails on any list containing a
non-digit character. -/
theorem parsePos_err {l : List Char} :
    ∀ {acc : Int}, (∃ c ∈ l, isAsciiDigit c = false) →
      ∃ k, parsePos l acc = .error k := by
  induction l with
  | nil => intro acc h; simp at h
  | cons c cs ih =>
    intro acc h
    by_cases hc : isAsciiDigit c = true
    · simp only [parsePos, hc, if_true]
      by_cases hov : acc * 10 + digitVal c > i64max
      · exact ⟨.posOverflow, by simp [hov]⟩
      · simp only [hov, if_false]
        apply ih
        obtain ⟨x, hx, hxd⟩ := h
        rcases List.mem_cons.mp hx with rfl | hx2
        · exact absurd hc (by simp [hxd])
        · exact ⟨x, hx2, hxd⟩
    · exact ⟨.invalidDigit, by simp [parsePos, hc]⟩

/-- The negative accumulation loop fails on any list containing a
non-digit character. -/
theorem parseNeg_err {l : List Char} :
    ∀ {acc : Int}, (∃ c ∈ l, isAsciiDigit c = false) →
      ∃ k, parseNeg l acc = .error k := by
  induction l with
  | nil => intro acc h; simp at h
  | cons c cs ih =>
    intro acc h
    by_cases hc : isAsciiDigit c = true
    · simp only [parseNeg, hc, if_true]
      by_cases hov : acc * 10 - digitVal c < i64min
      · exact ⟨.negOverflow, by simp [hov]⟩
      · simp only [hov, if_false]
        apply ih
        obtain ⟨x, hx, hxd⟩ := h
        rcases List.mem_cons.mp hx with rfl | hx2
        · exact absurd hc (by simp [hxd])
        · exact ⟨x, hx2, hxd⟩
    · exact ⟨.invalidDigit, by simp [parseNeg, hc]⟩

/-- Dropping a whitespace run does not change the cleaned text when
every whitespace character of the list is one the cleaning step
removes anyway. -/
theorem filter_clean_dropWhile :
    ∀ l : List Char, (∀ c ∈ l, isRustWhitespace c = true → removedByClean c = true) →
      (l.dropWhile isRustWhitespace).filter (fun c => !(removedByClean c)) =
        l.filter (fun c => !(removedByClean c)) := by
  intro l
  induction l with
  | nil => intro _; rfl
  | cons c r ih =>
    intro h
    by_cases hw : isRustWhitespace c = true
    · have hr := h c (by simp) hw
      rw [List.dropWhile_cons_of_pos hw, ih (fun x hx hxw => h x (by simp [hx]) hxw)]
      simp [List.filter_cons, hr]
    · rw [List.dropWhile_cons_of_neg hw]

/-- When every whitespace character of the raw text is removed by the
cleaning step anyway, trimming before cleaning changes nothing. -/
theorem cleanString_rustTrim (s : String)
    (h : ∀ c ∈ s.data, isRustWhitespace c = true → removedByClean c = true) :
    cleanString (rustTrim s) = cleanString s := by
  have hA : ∀ c ∈ s.data.dropWhile isRustWhitespace, isRustWhitespace c = true →
      removedByClean c = true :=
    fun c hc => h c ((List.dropWhile_sublist isRustWhitespace).mem hc)
  have hAr : ∀ c ∈ (s.data.dropWhile isRustWhitespace).reverse, isRustWhitespace c = true →
      removedByClean c = true :=
    fun c hc => hA c (List.mem_reverse.mp hc)
  show String.mk _ = String.mk _
  congr 1
  show List.filter (fun c => !(removedByClean c))
      (((s.data.dropWhile isRustWhitespace).reverse.dropWhile isRustWhitespace).reverse) =
    List.filter (fun c => !(removedByClean c)) s.data
  rw [List.filter_reverse, filter_clean_dropWhile _ hAr, List.filter_reverse,
    List.reverse_reverse, filter_clean_dropWhile _ h]

/-- `i64::from_str` on a non-empty all-digit string within range
returns the denoted value. -/
theorem parseI64_digits (s : String) (hne : s.data ≠ [])
    (hdigits : ∀ c ∈ s.data, isAsciiDigit c = true)
    (hle : decVal s.data ≤ i64max) :
    parseI64 s = .ok (decVal s.data) := by
  cases hd : s.data with
  | nil => exact absurd hd hne
  | cons c rest =>
    have hc : isAsciiDigit c = true := hdigits c (by simp [hd])
    have hcplus : ¬(c = '+') := fun hp => by subst hp; simp [isAsciiDigit] at hc
    have hcminus : ¬(c = '-') := fun hp => by subst hp; simp [isAsciiDigit] at hc
    have hall : ∀ x ∈ c :: rest, isAsciiDigit x = true := fun x hx =>
      hdigits x (by rw [hd]; exact hx)
    have hle2 : decValFrom 0 (c :: rest) ≤ i64max := by
      rw [decVal, hd] at hle; exact hle
    have step1 : parseI64 s = parsePos (c :: rest) 0 := by
      rw [parseI64, hd]
      simp [hcplus, hcminus]
    rw [step1]
    exact parsePos_ok hall le_rfl hle2

/-- Unfolding of the extractor on a present selector text. -/
theorem fetch_tgju_rate_some (t : String) :
    fetch_tgju_rate (some t) =
      match parseI64 (cleanString (rustTrim t)) with
      | .ok v => .ok v
      | .error k => .error (.parseIntError k) := rfl

/-- C4 counterexample: the input text `"9223372036854775808"` is its
own cleaned form, consists only of decimal digits — so it equals a
decimal integer literal, of value 2^63 — yet the extractor does not
return that integer: `i64` parsing overflows.  The claim as stated
(every cleaned decimal literal is returned) is therefore false. -/
theorem c4_overflow_counterexample :
    cleanString "9223372036854775808" = "9223372036854775808" ∧
    (∀ c ∈ "9223372036854775808".data, isAsciiDigit c = true) ∧
    decVal "9223372036854775808".data = 9223372036854775808 ∧
    fetch_tgju_rate (some "9223372036854775808") ≠
      .ok (decVal "9223372036854775808".data) ∧
    fetch_tgju_rate (some "9223372036854775808") =
      .error (.parseIntError .posOverflow) := by
  have he : fetch_tgju_rate (some "9223372036854775808") =
      .error (.parseIntError .posOverflow) := rfl
  refine ⟨rfl, by decide, rfl, ?_, he⟩
  rw [he]
  simp

/-- C4 (amended): for every input whose cleaned form is a non-empty
string of decimal digits denoting a value that fits in an `i64`
(at most 9223372036854775807), the extractor succeeds and returns
exactly that value. -/
theorem c4_extractor_returns_literal (t : String)
    (hne : (cleanString t).data ≠ [])
    (hdigits : ∀ c ∈ (cleanString t).data, isAsciiDigit c = true)
    (hle : decVal (cleanString t).data ≤ i64max) :
    fetch_tgju_rate (some t) = .ok (decVal (cleanString t).data) := by
  have hws : ∀ c ∈ t.data, isRustWhitespace c = true → removedByClean c = true := by
    intro c hc hcw
    by_cases hr : removedByClean c = true
    · exact hr
    · have hmem : c ∈ (cleanString t).data := by
        show c ∈ t.data.filter _
        exact List.mem_filter.mpr ⟨hc, by simp [hr]⟩
      have hd := hdigits c hmem
      simp [digit_not_whitespace hd] at hcw
  have hclean := cleanString_rustTrim t hws
  rw [fetch_tgju_rate_some, hclean, parseI64_digits _ hne hdigits hle]

/-- Witness for the amended C4 at the input `" 1,050,000 "`. -/
theorem c4_extractor_returns_literal_witness :
    fetch_tgju_rate (some " 1,050,000 ") = .ok 1050000 := by
  have h := c4_extractor_returns_literal " 1,050,000 " (by decide) (by decide) (by decide)
  exact h

/-- Shape accepted by `i64::from_str`: an optional single leading sign
followed by at least one decimal digit. -/
def signedDigitsShape (l : List Char) : Bool :=
  match l with
  | [] => false
  | c :: rest =>
    if c = '+' || c = '-' then !rest.isEmpty && rest.all isAsciiDigit
    else (c :: rest).all isAsciiDigit

/-- `i64::from_str` fails on every string that is not an optional sign
followed by one or more digits. -/
theorem parseI64_err_of_shape (s : String)
    (h : signedDigitsShape s.data = false) :
    ∃ k, parseI64 s = .error k := by
  cases hd : s.data with
  | nil => exact ⟨.empty, by rw [parseI64, hd]⟩
  | cons c rest =>
    rw [hd] at h
    by_cases hp : c = '+'
    · subst hp
      simp only [signedDigitsShape] at h
      rw [if_pos (by simp)] at h
      cases hrest : rest with
      | nil => exact ⟨.invalidDigit, by rw [parseI64, hd, hrest]; simp⟩
      | cons c2 r2 =>
        rw [hrest] at h
        simp only [List.isEmpty_cons, Bool.not_false, Bool.true_and] at h
        have hnd : ∃ x ∈ c2 :: r2, isAsciiDigit x = false := by
          rcases List.all_eq_false.mp h with ⟨x, hx, hxd⟩
          exact ⟨x, hx, by simpa using hxd⟩
        obtain ⟨k, hk⟩ := @parsePos_err (c2 :: r2) 0 hnd
        exact ⟨k, by rw [parseI64, hd, hrest]; simp [hk]⟩
    · by_cases hm : c = '-'
      · subst hm
        simp only [signedDigitsShape] at h
        rw [if_pos (by simp)] at h
        cases hrest : rest with
        | nil => exact ⟨.invalidDigit, by rw [parseI64, hd, hrest]; simp⟩
        | cons c2 r2 =>
          rw [hrest] at h
          simp only [List.isEmpty_cons, Bool.not_false, Bool.true_and] at h
          have hnd : ∃ x ∈ c2 :: r2, isAsciiDigit x = false := by
            rcases List.all_eq_false.mp h with ⟨x, hx, hxd⟩
            exact ⟨x, hx, by simpa using hxd⟩
          obtain ⟨k, hk⟩ := @parseNeg_err (c2 :: r2) 0 hnd
          exact ⟨k, by rw [parseI64, hd, hrest]; simp [hk]⟩
      · simp only [signedDigitsShape] at h
        rw [if_neg (by simp [hp, hm])] at h
        have hnd : ∃ x ∈ c :: rest, isAsciiDigit x = false := by
          rcases List.all_eq_false.mp h with ⟨x, hx, hxd⟩
          exact ⟨x, hx, by simpa using hxd⟩
        obtain ⟨k, hk⟩ := @parsePos_err (c :: rest) 0 hnd
        exact ⟨k, by rw [parseI64, hd]; simp [hp, hm, hk]⟩

/-- A successful `i64::from_str` result is negative only when the
input begins with a minus sign. -/
theorem parseI64_neg_head (s : String) (v : Int)
    (h : parseI64 s = .ok v) (hv : v < 0) :
    s.data.head? = some '-' := by
  cases hd : s.data with
  | nil => rw [parseI64, hd] at h; exact absurd h (by simp)
  | cons c rest =>
    rw [parseI64, hd] at h
    by_cases hp : c = '+'
    · simp only [hp, if_true] at h
      cases hrest : rest with
      | nil => rw [hrest] at h; exact absurd h (by simp)
      | cons c2 r2 =>
        rw [hrest] at h
        simp only [List.isEmpty_cons, Bool.false_eq_true, if_false] at h
        have := parsePos_nonneg le_rfl h
        omega
    · by_cases hm : c = '-'
      · simp [hm]
      · simp only [hp, hm, if_false] at h
        have := parsePos_nonneg le_rfl h
        omega

/-- C5 counterexample: for the input `"-5"` the cleaned form is
`"-5"`, which contains the non-digit character `-`, yet the extractor
does not fail with a parse error: it succeeds and returns the
negative integer `-5`.  Both halves of the claim as stated (failure
on any non-digit, and no negative results) are therefore false. -/
theorem c5_negative_counterexample :
    cleanString "-5" = "-5" ∧
    ('-' ∈ (cleanString "-5").data ∧ isAsciiDigit '-' = false) ∧
    fetch_tgju_rate (some "-5") = .ok (-5) ∧ (-5 : Int) < 0 :=
  ⟨rfl, ⟨by decide, by decide⟩, rfl, by decide⟩

/-- C5 (amended): the extractor fails with a parse error on every
input whose cleaned form (after trimming surrounding whitespace) is
not an optional single leading sign followed by one or more decimal
digits; and it returns a negative integer only when that cleaned form
begins with a minus sign. -/
theorem c5_parse_error_on_malformed (t : String) :
    (signedDigitsShape (cleanString (rustTrim t)).data = false →
      ∃ k, fetch_tgju_rate (some t) = .error (.parseIntError k)) ∧
    (∀ v, fetch_tgju_rate (some t) = .ok v → v < 0 →
      (cleanString (rustTrim t)).data.head? = some '-') := by
  constructor
  · intro h
    obtain ⟨k, hk⟩ := parseI64_err_of_shape _ h
    exact ⟨k, by rw [fetch_tgju_rate_some, hk]⟩
  · intro v hv hneg
    rw [fetch_tgju_rate_some] at hv
    cases hp : parseI64 (cleanString (rustTrim t)) with
    | ok w =>
      rw [hp] at hv
      simp only [Except.ok.injEq] at hv
      subst hv
      exact parseI64_neg_head _ _ hp hneg
    | error k => rw [hp] at hv; exact absurd hv (by simp)

/-- Witness for the amended C5 at the input `"12x"`. -/
theorem c5_parse_error_on_malformed_witness :
    signedDigitsShape (cleanString (rustTrim "12x")).data = false ∧
    ∃ k, fetch_tgju_rate (some "12x") = .error (.parseIntError k) :=
  ⟨by decide, (c5_parse_error_on_malformed "12x").1 (by decide)⟩

/-- C3: on a deserialized ticker record, the cross-rate fetcher
succeeds — returning the `last` field of the first `data` entry —
exactly when `success` is true and `data` is non-empty; when `success`
is false or `data` is empty it rejects the upstream response; a
deserialization failure is reported as a JSON parse error. -/
theorem c3_cross_rate_validation (obj : BtcTurkRes) :
    ((∃ v, fetch_usdt_try (.ok obj) = .ok v) ↔ (obj.success = true ∧ obj.data ≠ [])) ∧
    (obj.success = true → obj.data ≠ [] →
      fetch_usdt_try (.ok obj) = .ok (obj.data.headD default).last) ∧
    ((obj.success = false ∨ obj.data = []) →
      fetch_usdt_try (.ok obj) = .error .upstreamRejected) ∧
    fetch_usdt_try (.error ()) = .error .jsonParseError := by
  obtain ⟨su, da⟩ := obj
  cases su <;> cases da <;> simp [fetch_usdt_try]

/-- Witness for C3: a successful record with one entry yields its
`last` value; hypotheses discharged at that record. -/
theorem c3_cross_rate_validation_witness :
    fetch_usdt_try (.ok ⟨true, [⟨7⟩]⟩) =
      .ok ((([⟨7⟩] : List BtcTurkItem).headD default).last) :=
  (c3_cross_rate_validation ⟨true, [⟨7⟩]⟩).2.1 rfl (by simp)

/-- The snapshot built by the collection loop holds exactly the
successful fetch results. -/
theorem collectRates_get (tgju : Currency → Except TgjuErr Int) (t : Currency) :
    (collectRates tgju).get t = (tgju t).toOption := by
  cases t <;> rfl

/-- C2: in any tick in which the USD fetch failed or the cross-rate
fetch failed, the tick never reaches the `sent` outcome: the notifier
is not invoked, the iteration ends in a skip (log, sleep, next
iteration). -/
theorem c2_no_message_on_failed_inputs (tgju : Currency → Except TgjuErr Int)
    (cross : Except UsdtErr Rat) (chat_id : String)
    (h : (tgju .usd).isOk = false ∨ cross.isOk = false) :
    ∀ msg, tick tgju cross chat_id ≠ .sent msg := by
  intro msg
  rcases h with h | h
  · have husd : (collectRates tgju).get .usd = none := by
      rw [collectRates_get]
      cases ht : tgju Currency.usd with
      | ok v => rw [ht] at h; simp [Except.isOk, Except.toBool] at h
      | error e => simp [Except.toOption]
    simp [tick, husd]
  · obtain ⟨e, he⟩ : ∃ e, cross = .error e := by
      cases hc : cross with
      | ok v => rw [hc] at h; simp [Except.isOk, Except.toBool] at h
      | error e => exact ⟨e, rfl⟩
    by_cases hu : ((collectRates tgju).get .usd).isSome
    · simp [tick, hu, he]
    · simp [tick, hu]

/-- Witness for C2 at a tick whose USD fetch failed. -/
theorem c2_no_message_on_failed_inputs_witness :
    tick (fun _ => .error .selectorNotFound) (.ok 2) "x" ≠ .sent "" :=
  c2_no_message_on_failed_inputs (fun _ => .error .selectorNotFound)
    (.ok 2) "x" (Or.inl (by decide)) ""

/-- C9: the `unwrap` of the USD entry at the derived-price computation
(`main.rs` line 168) is safe: whenever the tick passes the USD
presence check of line 151 — that is, whenever the outcome is not the
no-USD skip — the snapshot's USD entry is present, and nothing removes
it between the check and the lookup. -/
theorem c9_usd_unwrap_safe (tgju : Currency → Except TgjuErr Int)
    (cross : Except UsdtErr Rat) (chat_id : String)
    (h : tick tgju cross chat_id ≠ .skippedNoUsd) :
    ((collectRates tgju).get .usd).isSome = true := by
  cases hu : ((collectRates tgju).get .usd).isSome with
  | true => rfl
  | false => exact absurd (by simp [tick, hu]) h

/-- Witness for C9 at a concrete tick that passes the USD check. -/
theorem c9_usd_unwrap_safe_witness :
    ((collectRates (fun _ => .ok 5)).get .usd).isSome = true :=
  c9_usd_unwrap_safe (fun _ => .ok 5) (.error .jsonParseError) "x" (by decide)

/-- All-success fetch results used as a concrete tick input. -/
def tgjuAllOk : Currency → Except TgjuErr Int := fun _ => .ok 1000000

/-- C6 counterexample: for the cross-rate `0` (so `c ≤ 0`), the
program does not refuse with any `InvalidInput` error — no such error
path exists anywhere in the code — it computes a derived value and
sends a message.  The cross-rate fetcher accepts the value because it
validates only the `success` flag and non-emptiness of `data`, never
the sign of `last`. -/
theorem c6_zero_rate_counterexample :
    ((0 : Rat) ≤ 0) ∧
    fetch_usdt_try (.ok ⟨true, [⟨0⟩]⟩) = .ok 0 ∧
    (tick tgjuAllOk (.ok (0 : Rat)) "id").isSent = true :=
  ⟨le_refl 0, rfl, rfl⟩

/-- C6 (amended): the rate converter performs no sign check on the
cross-rate.  For every cross-rate `c`, including every `c ≤ 0`, once
the fetcher has returned it and a USD quote is present, the tick
computes the derived value and sends a message; there is no
`InvalidInput` refusal in the program. -/
theorem c6_no_positivity_check (tgju : Currency → Except TgjuErr Int)
    (chat_id : String) (c : Rat) (v : Int)
    (husd : tgju .usd = .ok v) (hc : c ≤ 0) :
    ∃ m, tick tgju (.ok c) chat_id = .sent m := by
  have hget : (collectRates tgju).get .usd = some v := by
    rw [collectRates_get, husd]
    rfl
  have hsent : ∀ o : TickOutcome, o.isSent = true → ∃ m, o = .sent m := by
    intro o
    cases o <;> simp [TickOutcome.isSent]
  apply hsent
  simp [tick, hget, TickOutcome.isSent]

/-- Witness for the amended C6 at cross-rate `0` with all fetches
successful. -/
theorem c6_no_positivity_check_witness :
    tgjuAllOk Currency.usd = .ok 1000000 ∧ ((0 : Rat) ≤ 0) ∧
    ∃ m, tick tgjuAllOk (.ok (0 : Rat)) "id" = .sent m :=
  ⟨rfl, le_refl 0, c6_no_positivity_check tgjuAllOk "id" 0 1000000 rfl (le_refl 0)⟩

/-- C7: the emitted message is the header, then exactly one line per
currency tag present in the snapshot — in the fixed order USD, EUR,
AED, CNY, independent of how the snapshot was filled — then the lira
line, the footer and the chat id; and a tag is present in the
snapshot exactly when its fetch succeeded, so a failed tag
contributes no line. -/
theorem c7_lines_fixed_order (r : Rates) (lira : Int) (chat_id : String) :
    buildMessage r lira chat_id =
      msgHeader ++ joinAll (currencyLines r) ++ liraLine lira ++ msgFooter ++ chat_id ∧
    ∀ (tgju : Currency → Except TgjuErr Int) (t : Currency),
      ((collectRates tgju).get t = none ↔ ¬∃ v, tgju t = .ok v) := by
  refine ⟨buildMessage_eq r lira chat_id, ?_⟩
  intro tgju t
  rw [collectRates_get]
  cases ht : tgju t <;> simp [Except.toOption]

/-- Witness for C7 at a concrete snapshot holding USD and AED only. -/
theorem c7_lines_fixed_order_witness :
    buildMessage ⟨some 10, none, some 20, none⟩ 3 "id" =
      msgHeader ++ joinAll (currencyLines ⟨some 10, none, some 20, none⟩) ++
        liraLine 3 ++ msgFooter ++ "id" :=
  (c7_lines_fixed_order ⟨some 10, none, some 20, none⟩ 3 "id").1

/-- The label part of each currency line. -/
def tagLabel : Currency → String
  | .usd => "💵 دلار: "
  | .eur => "💶 یورو: "
  | .aed => "🇦🇪 درهم: "
  | .cny => "🇨🇳 یوآن چین: "

/-- Every currency line is its label, the formatted display value,
and the unit word. -/
theorem lineForTag_eq (t : Currency) (v : Int) :
    lineForTag t v = tagLabel t ++ (fmt_int (displayValue v) ++ " تومان\n") := by
  cases t <;>
    simp [lineForTag, tagLabel, usdLine, eurLine, aedLine, cnyLine, String.append_assoc]

/-- C8: for every tag present in the snapshot with quoted price `v`,
the message contains that tag's line carrying the formatted display
value `displayValue v` — the `i64` division `v / 10`, which truncates
toward zero — and for `0 ≤ v` that value is the floor of `v` over
`10`: it is never rounded up. -/
theorem c8_display_truncating (r : Rates) (lira : Int) (chat_id : String)
    (t : Currency) (v : Int) (h : r.get t = some v) :
    (∃ p q, buildMessage r lira chat_id = p ++ (fmt_int (displayValue v) ++ q)) ∧
    displayValue v = Int.tdiv v 10 ∧
    (0 ≤ v → displayValue v * 10 ≤ v ∧ v < displayValue v * 10 + 10) := by
  refine ⟨?_, rfl, ?_⟩
  · have hmem : lineForTag t v ∈ currencyLines r := by
      refine List.mem_filterMap.mpr ⟨t, ?_, ?_⟩
      · cases t <;> simp [currencyOrder]
      · rw [h]
        rfl
    obtain ⟨p0, q0, hj⟩ := joinAll_of_mem hmem
    refine ⟨msgHeader ++ p0 ++ tagLabel t,
      " تومان\n" ++ (q0 ++ (liraLine lira ++ (msgFooter ++ chat_id))), ?_⟩
    rw [buildMessage_eq, hj, lineForTag_eq]
    simp [String.append_assoc]
  · intro hv
    show Int.tdiv v 10 * 10 ≤ v ∧ v < Int.tdiv v 10 * 10 + 10
    have he : Int.tdiv v 10 = v / 10 := Int.tdiv_eq_ediv hv (by norm_num)
    have h1 := Int.ediv_add_emod v 10
    have h2 := Int.emod_nonneg v (show (10 : Int) ≠ 0 by norm_num)
    have h3 := Int.emod_lt_of_pos v (show (0 : Int) < 10 by norm_num)
    omega

/-- Witness for C8 at a snapshot holding USD with quoted price 105. -/
theorem c8_display_truncating_witness :
    (∃ p q, buildMessage ⟨some 105, none, none, none⟩ 7 "id" =
      p ++ (fmt_int (displayValue 105) ++ q)) ∧
    displayValue 105 = Int.tdiv 105 10 ∧
    (0 ≤ (105 : Int) →
      displayValue 105 * 10 ≤ 105 ∧ (105 : Int) < displayValue 105 * 10 + 10) :=
  c8_display_truncating ⟨some 105, none, none, none⟩ 7 "id" .usd 105 rfl
